import Mathlib

/-!
Shallow embedding of the computational core of `src/atradebot/utils.py`
(business-day calendar arithmetic, stride-based peak/valley detection,
volatility-threshold extrema filtering, and the multi-horizon forecast
calculator), together with theorems settling the specification claims.

Dates are modelled as integers (days since an epoch chosen so that day 0 is
a Monday); `d % 7` is then exactly Python's `date.weekday()` (Monday = 0,
..., Sunday = 6). Prices are modelled as rationals (finite IEEE doubles are
rational; NaN/inf special cases are modelled explicitly where the code can
produce them).
-/

namespace Atradebot

/-- Embeds `is_business_day` from utils.py: `pd.bdate_range(date, date)` is
nonempty exactly when the date's weekday is Monday..Friday (pandas freq "B",
no holiday calendar). -/
def is_business_day (d : ℤ) : Prop := d % 7 < 5

instance is_business_day.dec : ∀ d, Decidable (is_business_day d) :=
  fun d => inferInstanceAs (Decidable (d % 7 < 5))

/-- The `while not is_business_day(out_date)` walk inside `find_business_day`:
steps one calendar day at a time, backward when `neg` (i.e. `num_days < 0` in
the source), forward otherwise, until a weekday is reached. -/
def walkDir (neg : Bool) (d : ℤ) : ℤ :=
  if is_business_day d then d
  else walkDir neg (if neg then d - 1 else d + 1)
termination_by (if neg then (d % 7 - 4).toNat else ((7 - d % 7) % 7).toNat)
decreasing_by
  cases neg <;> simp_all [is_business_day] <;> omega

/-- Embeds `find_business_day(start_date, num_days)` from utils.py:
`out_date = start_date + timedelta(days=num_days)`, then walk one calendar
day at a time (backward iff `num_days < 0`) until a business day. -/
def find_business_day (start_date num_days : ℤ) : ℤ :=
  walkDir (decide (num_days < 0)) (start_date + num_days)

/-- The `while business_days_added < abs(num_days)` loop of `business_days`:
`k` is the number of weekday-steps still to count; each iteration moves one
calendar day (backward when `neg`) and decrements `k` only when the
landed-on day is a weekday (`weekday() < 5`). -/
def bdGo (neg : Bool) (d : ℤ) (k : ℕ) : ℤ :=
  if k = 0 then d
  else
    if is_business_day (if neg then d - 1 else d + 1) then
      bdGo neg (if neg then d - 1 else d + 1) (k - 1)
    else
      bdGo neg (if neg then d - 1 else d + 1) k
termination_by 7 * k + (if neg then ((d % 7 + 2) % 7).toNat else ((7 - d % 7) % 7).toNat)
decreasing_by
  · cases neg <;> simp_all [is_business_day] <;> omega
  · cases neg <;> simp_all [is_business_day] <;> omega

/-- Embeds `business_days(start_date, num_days)` from utils.py: step one
calendar day at a time in the sign-of-`num_days` direction, counting a step
exactly when the landed-on day has `weekday() < 5`, until `abs(num_days)`
such steps are counted. -/
def business_days (start_date num_days : ℤ) : ℤ :=
  bdGo (decide (num_days < 0)) start_date num_days.natAbs

/-- Fuel-indexed version of the `find_business_day` walk, counting loop
iterations: `none` means the loop has not finished within `f` iterations. -/
def walkDirF (neg : Bool) : ℕ → ℤ → Option ℤ
  | 0, _ => none
  | f + 1, d =>
    if is_business_day d then some d
    else walkDirF neg f (if neg then d - 1 else d + 1)

/-- Fuel-indexed `find_business_day`. -/
def find_business_dayF (f : ℕ) (start_date num_days : ℤ) : Option ℤ :=
  walkDirF (decide (num_days < 0)) f (start_date + num_days)

/-- Fuel-indexed version of the `business_days` loop, counting iterations. -/
def bdGoF (neg : Bool) : ℕ → ℤ → ℕ → Option ℤ
  | _, d, 0 => some d
  | 0, _, _ + 1 => none
  | f + 1, d, k + 1 =>
    let d' := if neg then d - 1 else d + 1
    if is_business_day d' then bdGoF neg f d' k else bdGoF neg f d' (k + 1)

/-- Fuel-indexed `business_days`. -/
def business_daysF (f : ℕ) (start_date num_days : ℤ) : Option ℤ :=
  bdGoF (decide (num_days < 0)) f start_date num_days.natAbs

theorem walkDir_biz (neg : Bool) (d : ℤ) :
    is_business_day (walkDir neg d) := by
  induction d using walkDir.induct neg with
  | case1 d h => rw [walkDir, if_pos h]; exact h
  | case2 d h ih => rw [walkDir, if_neg h]; exact ih

theorem walkDirF_eq_walkDir (neg : Bool) :
    ∀ f d, (if neg then (d % 7 - 4).toNat else ((7 - d % 7) % 7).toNat) < f →
      walkDirF neg f d = some (walkDir neg d) := by
  intro f
  induction f with
  | zero => intro d h; omega
  | succ f ih =>
    intro d h
    by_cases hb : is_business_day d
    · rw [walkDirF, if_pos hb, walkDir, if_pos hb]
    · rw [walkDirF, if_neg hb, walkDir, if_neg hb]
      apply ih
      simp only [is_business_day] at hb
      cases neg <;> simp_all <;> omega

theorem bdGoF_eq_bdGo (neg : Bool) :
    ∀ f d k, 7 * k + (if neg then ((d % 7 + 2) % 7).toNat else ((7 - d % 7) % 7).toNat) ≤ f →
      bdGoF neg f d k = some (bdGo neg d k) := by
  intro f
  induction f with
  | zero =>
    intro d k h
    have hk : k = 0 := by cases neg <;> simp_all
    subst hk
    rw [bdGo]
    simp [bdGoF]
  | succ f ih =>
    intro d k h
    match k with
    | 0 => rw [bdGo]; simp [bdGoF]
    | k + 1 =>
      rw [bdGo]
      simp only [Nat.add_eq_zero, Nat.succ_ne_zero, and_false, if_false,
        Nat.add_sub_cancel]
      by_cases hb : is_business_day (if neg then d - 1 else d + 1)
      · rw [bdGoF, if_pos hb, if_pos hb]
        apply ih
        simp only [is_business_day] at hb
        cases neg <;> simp_all <;> omega
      · rw [bdGoF, if_neg hb, if_neg hb]
        apply ih
        simp only [is_business_day] at hb
        cases neg <;> simp_all <;> omega

theorem bdGoF_biz (neg : Bool) :
    ∀ f d k r, k ≠ 0 → bdGoF neg f d k = some r → is_business_day r := by
  intro f
  induction f with
  | zero =>
    intro d k r hk hr
    match k, hk with
    | k + 1, _ => simp [bdGoF] at hr
  | succ f ih =>
    intro d k r hk hr
    match k, hk with
    | k + 1, _ =>
      rw [bdGoF] at hr
      by_cases hb : is_business_day (if neg then d - 1 else d + 1)
      · rw [if_pos hb] at hr
        match k with
        | 0 =>
          have : r = (if neg then d - 1 else d + 1) := by
            cases f <;> exact (by simpa [bdGoF] using hr : _ = r).symm
          rw [this]; exact hb
        | k + 1 => exact ih _ _ _ (by omega) hr
      · rw [if_neg hb] at hr
        exact ih _ _ _ (by omega) hr

theorem bdGo_biz (neg : Bool) (d : ℤ) (k : ℕ) (hk : k ≠ 0) :
    is_business_day (bdGo neg d k) := by
  apply bdGoF_biz neg (7 * k + (if neg then ((d % 7 + 2) % 7).toNat
    else ((7 - d % 7) % 7).toNat)) d k _ hk
  exact bdGoF_eq_bdGo neg _ d k le_rfl

/-- Walking forward from a Saturday reaches the Monday two days later. -/
theorem walkDir_sat (d : ℤ) (h : d % 7 = 5) : walkDir false d = d + 2 := by
  have h1 : ¬ is_business_day d := by simp only [is_business_day]; omega
  have h2 : ¬ is_business_day (d + 1) := by simp only [is_business_day]; omega
  have h3 : is_business_day (d + 1 + 1) := by simp only [is_business_day]; omega
  rw [walkDir, if_neg h1]
  simp only [Bool.false_eq_true, if_false]
  rw [walkDir, if_neg h2]
  simp only [Bool.false_eq_true, if_false]
  rw [walkDir, if_pos h3]
  ring

/-- Walking forward from a Sunday reaches the Monday one day later. -/
theorem walkDir_sun (d : ℤ) (h : d % 7 = 6) : walkDir false d = d + 1 := by
  have h1 : ¬ is_business_day d := by simp only [is_business_day]; omega
  have h2 : is_business_day (d + 1) := by simp only [is_business_day]; omega
  rw [walkDir, if_neg h1]
  simp only [Bool.false_eq_true, if_false]
  rw [walkDir, if_pos h2]

theorem business_days_zero (d : ℤ) : business_days d 0 = d := by
  rw [business_days]
  simp only [Int.natAbs_zero]
  rw [bdGo]
  simp

/-- One iteration of the `business_days` source loop, peeled off in each
direction away from the `num_days = 0` case. -/
theorem business_days_step (d n : ℤ) :
    (0 < n → business_days d n =
      business_days (d + 1) (if is_business_day (d + 1) then n - 1 else n)) ∧
    (n < 0 → business_days d n =
      business_days (d - 1) (if is_business_day (d - 1) then n + 1 else n)) := by
  constructor
  · intro hn
    have hd : decide (n < 0) = false := by simp; omega
    rw [business_days, hd, bdGo]
    have hk : n.natAbs ≠ 0 := by omega
    rw [if_neg hk]
    simp only [Bool.false_eq_true, if_false]
    by_cases hb : is_business_day (d + 1)
    · rw [if_pos hb, if_pos hb, business_days]
      have hd' : decide (n - 1 < 0) = false := by simp; omega
      rw [hd']
      congr 1
      omega
    · rw [if_neg hb, if_neg hb, business_days, hd]
  · intro hn
    have hd : decide (n < 0) = true := by simp; omega
    rw [business_days, hd, bdGo]
    have hk : n.natAbs ≠ 0 := by omega
    rw [if_neg hk]
    simp only [if_true]
    by_cases hb : is_business_day (d - 1)
    · rw [if_pos hb, if_pos hb]
      by_cases hn1 : n + 1 = 0
      · rw [hn1, business_days_zero]
        have h0 : n.natAbs - 1 = 0 := by omega
        rw [h0, bdGo]
        simp
      · rw [business_days]
        have hd' : decide (n + 1 < 0) = true := by simp; omega
        rw [hd']
        congr 1
        omega
    · rw [if_neg hb, if_neg hb, business_days, hd]

theorem find_business_day_zero_eq (d : ℤ) :
    find_business_day d 0 = walkDir false d := by
  rw [find_business_day]
  norm_num

theorem bd_step_biz (d n : ℤ) (hn : 0 < n) (hb : is_business_day (d + 1)) :
    business_days d n = business_days (d + 1) (n - 1) := by
  have h := (business_days_step d n).1 hn
  rwa [if_pos hb] at h

theorem bd_step_skip (d n : ℤ) (hn : 0 < n) (hb : ¬ is_business_day (d + 1)) :
    business_days d n = business_days (d + 1) n := by
  have h := (business_days_step d n).1 hn
  rwa [if_neg hb] at h

/-- Starting on a Wednesday, five weekday-steps land on the following
Wednesday. -/
theorem business_days_wed (d : ℤ) (h : d % 7 = 2) : business_days d 5 = d + 7 := by
  have h1 : is_business_day (d + 1) := by simp only [is_business_day]; omega
  have h2 : is_business_day (d + 1 + 1) := by simp only [is_business_day]; omega
  have h3 : ¬ is_business_day (d + 1 + 1 + 1) := by simp only [is_business_day]; omega
  have h4 : ¬ is_business_day (d + 1 + 1 + 1 + 1) := by simp only [is_business_day]; omega
  have h5 : is_business_day (d + 1 + 1 + 1 + 1 + 1) := by simp only [is_business_day]; omega
  have h6 : is_business_day (d + 1 + 1 + 1 + 1 + 1 + 1) := by
    simp only [is_business_day]; omega
  have h7 : is_business_day (d + 1 + 1 + 1 + 1 + 1 + 1 + 1) := by
    simp only [is_business_day]; omega
  calc business_days d 5 = business_days (d + 1) 4 := by
        rw [bd_step_biz d 5 (by norm_num) h1]; norm_num
    _ = business_days (d + 1 + 1) 3 := by
        rw [bd_step_biz (d + 1) 4 (by norm_num) h2]; norm_num
    _ = business_days (d + 1 + 1 + 1) 3 := by
        rw [bd_step_skip (d + 1 + 1) 3 (by norm_num) h3]
    _ = business_days (d + 1 + 1 + 1 + 1) 3 := by
        rw [bd_step_skip (d + 1 + 1 + 1) 3 (by norm_num) h4]
    _ = business_days (d + 1 + 1 + 1 + 1 + 1) 2 := by
        rw [bd_step_biz (d + 1 + 1 + 1 + 1) 3 (by norm_num) h5]; norm_num
    _ = business_days (d + 1 + 1 + 1 + 1 + 1 + 1) 1 := by
        rw [bd_step_biz (d + 1 + 1 + 1 + 1 + 1) 2 (by norm_num) h6]; norm_num
    _ = business_days (d + 1 + 1 + 1 + 1 + 1 + 1 + 1) 0 := by
        rw [bd_step_biz (d + 1 + 1 + 1 + 1 + 1 + 1) 1 (by norm_num) h7]; norm_num
    _ = d + 7 := by rw [business_days_zero]; ring

/-- C6: `business_days` steps one calendar day at a time in the direction of
the sign of `num_days`, counting a step only when the landed-on day is a
weekday, and stops after exactly `|num_days|` such counted steps;
`business_days d 0 = d`, and starting on a Wednesday (`weekday = 2`),
`business_days d 5` lands on the following Wednesday (`d + 7`). -/
theorem claim6_business_days_stepping (d n : ℤ) :
    business_days d 0 = d ∧
    (0 < n → business_days d n =
      business_days (d + 1) (if is_business_day (d + 1) then n - 1 else n)) ∧
    (n < 0 → business_days d n =
      business_days (d - 1) (if is_business_day (d - 1) then n + 1 else n)) ∧
    (d % 7 = 2 → business_days d 5 = d + 7) :=
  ⟨business_days_zero d, (business_days_step d n).1, (business_days_step d n).2,
    business_days_wed d⟩

theorem claim6_business_days_stepping_witness :
    business_days 2 0 = 2 ∧ business_days 2 5 = 9 := by
  refine ⟨(claim6_business_days_stepping 2 5).1, ?_⟩
  have h := (claim6_business_days_stepping 2 5).2.2.2 (by norm_num)
  rw [h]
  norm_num

/-- C7: with `num_days = 0`, `find_business_day` returns the start date
itself when it is a business day, and otherwise the first business day
strictly after it (the walk moves forward since `num_days < 0` is false). -/
theorem claim7_find_business_day_zero (d : ℤ) :
    (is_business_day d → find_business_day d 0 = d) ∧
    (¬ is_business_day d →
      is_business_day (find_business_day d 0) ∧ d < find_business_day d 0 ∧
      ∀ e : ℤ, d < e → e < find_business_day d 0 → ¬ is_business_day e) := by
  constructor
  · intro hb
    rw [find_business_day_zero_eq, walkDir, if_pos hb]
  · intro hb
    rw [find_business_day_zero_eq]
    have h56 : d % 7 = 5 ∨ d % 7 = 6 := by
      simp only [is_business_day] at hb
      omega
    rcases h56 with h5 | h6
    · rw [walkDir_sat d h5]
      refine ⟨by simp only [is_business_day]; omega, by omega, ?_⟩
      intro e he1 he2
      have he : e = d + 1 := by omega
      subst he
      simp only [is_business_day]
      omega
    · rw [walkDir_sun d h6]
      refine ⟨by simp only [is_business_day]; omega, by omega, ?_⟩
      intro e he1 he2
      omega

theorem claim7_find_business_day_zero_witness :
    ¬ is_business_day (5 : ℤ) ∧ is_business_day (find_business_day 5 0) ∧
      (5 : ℤ) < find_business_day 5 0 :=
  ⟨by decide, ((claim7_find_business_day_zero 5).2 (by decide)).1,
    ((claim7_find_business_day_zero 5).2 (by decide)).2.1⟩

/-- C9: under the real weekday structure both calendar walks terminate: for
every start date and step count there is a finite iteration budget under
which the fuel-indexed versions of the loops finish and agree with the
recursively defined functions. -/
theorem claim9_calendar_walks_terminate (start_date num_days : ℤ) :
    (∃ f, find_business_dayF f start_date num_days =
      some (find_business_day start_date num_days)) ∧
    (∃ f, business_daysF f start_date num_days =
      some (business_days start_date num_days)) := by
  exact ⟨⟨_ + 1, walkDirF_eq_walkDir _ _ _ (Nat.lt_succ_self _)⟩,
    ⟨_, bdGoF_eq_bdGo _ _ _ _ le_rfl⟩⟩

/-- C10 (implicit): for nonzero `num_days` the date returned by
`business_days` is itself a weekday, since the final counted step lands on a
weekday; this does not hold for `num_days = 0` on a weekend start. -/
theorem claim10_business_days_lands_on_weekday (d n : ℤ) (h : n ≠ 0) :
    is_business_day (business_days d n) := by
  rw [business_days]
  exact bdGo_biz _ d n.natAbs (by omega)

theorem claim10_business_days_lands_on_weekday_witness :
    is_business_day (business_days 0 1) :=
  claim10_business_days_lands_on_weekday 0 1 (by norm_num)

/-! ### ExtremaDetector: `find_peaks_valleys` -/

/-- The index sequence of `range(off, len(array) - off, off)` with `off = 5`:
the Python range has `max(0, ceil((len - 10) / 5)) = (len - 6) / 5` elements
(natural subtraction), i.e. `5, 10, ...` while `i < len - 5`. -/
def scanIdxs (n : ℕ) : List ℕ := List.range' 5 ((n - 6) / 5) 5

/-- The peak test of `find_peaks_valleys`: Python's chained comparison
`array[i - off] < array[i] > array[i + off]`. -/
def isPeakAt (array : List ℚ) (i : ℕ) : Prop :=
  array.getD (i - 5) 0 < array.getD i 0 ∧ array.getD (i + 5) 0 < array.getD i 0

/-- The valley test of `find_peaks_valleys`: Python's chained comparison
`array[i - off] > array[i] < array[i + off]`. -/
def isValleyAt (array : List ℚ) (i : ℕ) : Prop :=
  array.getD i 0 < array.getD (i - 5) 0 ∧ array.getD i 0 < array.getD (i + 5) 0

instance isPeakAt.dec (array : List ℚ) (i : ℕ) : Decidable (isPeakAt array i) :=
  inferInstanceAs (Decidable (_ ∧ _))

instance isValleyAt.dec (array : List ℚ) (i : ℕ) : Decidable (isValleyAt array i) :=
  inferInstanceAs (Decidable (_ ∧ _))

/-- One iteration of the `find_peaks_valleys` loop body: append `i` to the
peak list, else (elif) to the valley list, else drop it. -/
def fpvStep (array : List ℚ) (pv : List ℕ × List ℕ) (i : ℕ) : List ℕ × List ℕ :=
  if isPeakAt array i then (pv.1 ++ [i], pv.2)
  else if isValleyAt array i then (pv.1, pv.2 ++ [i])
  else pv

/-- Embeds `find_peaks_valleys(array)` from utils.py: scan indices
`range(5, len(array) - 5, 5)`, classifying each as peak, valley, or neither. -/
def find_peaks_valleys (array : List ℚ) : List ℕ × List ℕ :=
  (scanIdxs array.length).foldl (fpvStep array) ([], [])

theorem foldl_fpvStep (array : List ℚ) :
    ∀ (l : List ℕ) (acc : List ℕ × List ℕ),
      l.foldl (fpvStep array) acc =
        (acc.1 ++ l.filter (fun i => decide (isPeakAt array i)),
         acc.2 ++ l.filter (fun i => decide (isValleyAt array i))) := by
  intro l
  induction l with
  | nil => intro acc; simp
  | cons i l ih =>
    intro acc
    rw [List.foldl_cons, ih]
    by_cases hp : isPeakAt array i
    · have hv : ¬ isValleyAt array i := by
        rcases hp with ⟨h1, _⟩
        rintro ⟨h2, _⟩
        exact absurd h1 (not_lt_of_gt h2)
      simp [fpvStep, hp, hv, List.filter_cons]
    · by_cases hv : isValleyAt array i
      · simp [fpvStep, hp, hv, List.filter_cons]
      · simp [fpvStep, hp, hv, List.filter_cons]

theorem find_peaks_valleys_eq (array : List ℚ) :
    find_peaks_valleys array =
      ((scanIdxs array.length).filter (fun i => decide (isPeakAt array i)),
       (scanIdxs array.length).filter (fun i => decide (isValleyAt array i))) := by
  rw [find_peaks_valleys, foldl_fpvStep]
  simp

theorem mem_scanIdxs (n i : ℕ) : i ∈ scanIdxs n ↔ 5 ≤ i ∧ i % 5 = 0 ∧ i + 5 < n := by
  rw [scanIdxs, List.mem_range']
  constructor
  · rintro ⟨j, hj, rfl⟩
    omega
  · rintro ⟨h1, h2, h3⟩
    exact ⟨i / 5 - 1, by omega, by omega⟩

/-- C5: `find_peaks_valleys` returns as peaks exactly the positive multiples
of the stride `off = 5` with `i + off < n` whose sample exceeds both the
samples one stride away, and dually for valleys; both lists ascend, and any
series shorter than `2*off + 1 = 11` yields two empty lists rather than an
error. -/
theorem claim5_stride_scan (array : List ℚ) :
    (∀ i, i ∈ (find_peaks_valleys array).1 ↔
      5 ≤ i ∧ i % 5 = 0 ∧ i + 5 < array.length ∧
      array.getD (i - 5) 0 < array.getD i 0 ∧ array.getD (i + 5) 0 < array.getD i 0) ∧
    (∀ i, i ∈ (find_peaks_valleys array).2 ↔
      5 ≤ i ∧ i % 5 = 0 ∧ i + 5 < array.length ∧
      array.getD i 0 < array.getD (i - 5) 0 ∧ array.getD i 0 < array.getD (i + 5) 0) ∧
    (find_peaks_valleys array).1.Pairwise (· < ·) ∧
    (find_peaks_valleys array).2.Pairwise (· < ·) ∧
    (array.length < 11 → find_peaks_valleys array = ([], [])) := by
  rw [find_peaks_valleys_eq]
  refine ⟨?_, ?_, ?_, ?_, ?_⟩
  · intro i
    simp only [List.mem_filter, mem_scanIdxs, decide_eq_true_eq, isPeakAt]
    tauto
  · intro i
    simp only [List.mem_filter, mem_scanIdxs, decide_eq_true_eq, isValleyAt]
    tauto
  · exact (List.pairwise_lt_range' 5 _ 5 (by norm_num)).filter _
  · exact (List.pairwise_lt_range' 5 _ 5 (by norm_num)).filter _
  · intro h
    have h0 : (array.length - 6) / 5 = 0 := by omega
    simp [scanIdxs, h0]

theorem claim5_stride_scan_witness :
    10 ∈ (find_peaks_valleys
      [100, 100, 100, 100, 100, 100, 100, 100, 100, 100, 150,
       100, 100, 100, 100, 100]).1 ∧
    find_peaks_valleys ([0, 0, 0] : List ℚ) = ([], []) :=
  ⟨((claim5_stride_scan _).1 10).mpr (by norm_num [List.getD]),
    (claim5_stride_scan [0, 0, 0]).2.2.2.2 (by norm_num)⟩

/-! ### ExtremaFilter: `filter_points`

The source's filtering algorithm (positional pairing, `coef_var * 0.2`
threshold) is written out in the body of `filter_points`, but it can never
run: utils.py's import block binds `pd`, `datetime`/`timedelta`, `yaml`,
`yf`, `re`, `random` and three langchain names, and nothing else — numpy is
never imported, so the name `np` in `coef_var = np.std(data)/np.mean(data)`
is unbound and every call raises `NameError` at that line, before any pair
or ratio is examined. -/

/-- Python exceptions relevant to `filter_points`: `nameError` is the
unbound-name failure the function actually hits at its `np.std` line, and
`invalidInputError` is the error the spec calls for at a zero base price
(modelled from the spec's words — no such class exists anywhere in the
repository, and the code has no statement that could raise it). -/
inductive FilterExc
  | nameError
  | invalidInputError
deriving DecidableEq

/-- Embeds `filter_points(data, peak_idx, valley_idx)` from utils.py. Its
first two statements (`len_min = min(len(peak_idx), len(valley_idx))` and
`idx = 0`, both effect-free) execute, and then
`coef_var = np.std(data)/np.mean(data)` raises `NameError` on every call,
because utils.py never imports numpy and `np` resolves to nothing. The
`while idx < len_min` pairing loop below that line is unreachable, so the
whole call reduces to this exception for every input. -/
def filter_points (data : List ℚ) (peak_idx valley_idx : List ℕ) :
    Except FilterExc (List ℕ × List ℕ) :=
  Except.error FilterExc.nameError

/-- C2 counterexample: on the series `[0, 1]` with peak index 1 and valley
index 0 the base price `min(V[1], V[0])` is 0, yet `filter_points` does not
signal an `InvalidInputError` there: like every call, it fails with the
unconditional `NameError` from the unbound name `np`, raised before the
division the claim speaks of is ever attempted. -/
theorem claim2_counterexample :
    filter_points [0, 1] [1] [0] = Except.error FilterExc.nameError ∧
    filter_points [0, 1] [1] [0] ≠ Except.error FilterExc.invalidInputError := by
  constructor
  · rfl
  · intro h
    rw [filter_points] at h
    simp at h

/-- C2 amended: when the base price `min(V[peak[idx]], V[valley[idx]])` of a
positional pair is 0, `filter_points` does signal an error, but not an
`InvalidInputError`: it raises the `NameError` caused by the missing
numpy import — an unconditional failure, hit on every call whatever the
input, before any infinite or undefined ratio could be produced. -/
theorem claim2_nameError_not_invalid_input (data : List ℚ)
    (peak_idx valley_idx : List ℕ) (idx : ℕ)
    (_h1 : idx < min peak_idx.length valley_idx.length)
    (_h2 : min (data.getD (peak_idx.getD idx 0) 0)
      (data.getD (valley_idx.getD idx 0) 0) = 0) :
    filter_points data peak_idx valley_idx = Except.error FilterExc.nameError ∧
    filter_points data peak_idx valley_idx ≠
      Except.error FilterExc.invalidInputError := by
  constructor
  · rfl
  · intro h
    rw [filter_points] at h
    simp at h

theorem claim2_nameError_not_invalid_input_witness :
    filter_points [0, 1] [1] [0] = Except.error FilterExc.nameError :=
  (claim2_nameError_not_invalid_input [0, 1] [1] [0] 0 (by norm_num)
    (by norm_num [min_def])).1

/-- C4 fails on the code as written: `filter_points` never performs the
claimed positional pairing or the `coef_var * 0.2` threshold test, because
the line computing `coef_var` raises `NameError` on every call — utils.py
never imports numpy. The loop implementing exactly the claimed rule sits
directly below that line, unreachable; the claim (and the function's own
docstring, which promises reduced peak and valley lists) describes the
evident intent, and the missing `import numpy as np` is the slip. Evaluated
at a concrete input: the call errors instead of returning any pair of
lists. -/
theorem claim4_filter_loop_unreachable :
    filter_points [2, 4] [1] [0] = Except.error FilterExc.nameError ∧
    ∀ out : List ℕ × List ℕ, filter_points [2, 4] [1] [0] ≠ Except.ok out := by
  constructor
  · rfl
  · intro out h
    rw [filter_points] at h
    simp at h

/-! ### ForecastCalculator: `get_forecast` -/

/-- Python exceptions reachable in `get_forecast`: `forecast[idx] = ...`
raises IndexError when `idx` is out of range of the list. -/
inductive PyErr
  | indexError
deriving DecidableEq

/-- Embeds `hdata['Close'].mean()`: pandas mean of a close-price window; `none`
models the NaN produced on an empty window. -/
def pymean (l : List ℚ) : Option ℚ :=
  if l = [] then none else some (l.sum / (l.length : ℚ))

/-- Embeds `hdata['Close'].mean()/price`: NaN (modelled as `none`) propagates
through the division. (A zero but non-NaN baseline, which numpy would turn
into `inf`, is not exercised by any claim.) -/
def mkEntry (m price : Option ℚ) : Option ℚ :=
  match m, price with
  | some mv, some pv => some (mv / pv)
  | _, _ => none

/-- The `for idx, adays in enumerate(add_days)` loop of `get_forecast`: the
cursor `s` is reassigned by `s = business_days(s, adays)` each iteration, a
3-business-day window starting there is fetched, and its mean close divided
by the baseline is assigned to `forecast[idx]` — an assignment that raises
IndexError when `idx ≥ len(forecast)`. -/
def gfGo (hist : ℤ → ℤ → List ℚ) (price : Option ℚ) :
    ℤ → ℕ → List ℤ → List (Option ℚ) → Except PyErr (List (Option ℚ))
  | _, _, [], forecast => .ok forecast
  | s, idx, adays :: rest, forecast =>
    if idx < forecast.length then
      gfGo hist price (business_days s adays) (idx + 1) rest
        (forecast.set idx
          (mkEntry (pymean (hist (business_days s adays)
            (business_days (business_days s adays) 3))) price))
    else .error .indexError

/-- Embeds `get_forecast(stock, date, add_days)` from utils.py. The
accessor `hist` stands for the close column of
`yf.Ticker(stock).history(start, end)`; `forecast` is initialised to the
literal `[0, 0, 0]` and the baseline `price` is the mean close of the
3-business-day window at `date`. -/
def get_forecast (hist : ℤ → ℤ → List ℚ) (date : ℤ) (add_days : List ℤ) :
    Except PyErr (List (Option ℚ)) :=
  gfGo hist (pymean (hist date (business_days date 3))) date 0 add_days
    [some 0, some 0, some 0]

/-- Stated from the spec's words (§4.4 step 2): thread one cursor through
the horizon list in order — advance it by `business_days(cursor, h)`, fetch
the 3-business-day window there, and append `mean_close / baseline`. -/
def specCumGo (hist : ℤ → ℤ → List ℚ) (price : Option ℚ) :
    ℤ → List ℤ → List (Option ℚ)
  | _, [] => []
  | c, h :: rest =>
    mkEntry (pymean (hist (business_days c h)
        (business_days (business_days c h) 3))) price
      :: specCumGo hist price (business_days c h) rest

/-- The spec's cumulative-cursor forecast vector. -/
def specForecastCum (hist : ℤ → ℤ → List ℚ) (date : ℤ) (hs : List ℤ) :
    List (Option ℚ) :=
  specCumGo hist (pymean (hist date (business_days date 3))) date hs

/-- Stated from the spec's words describing the rejected reading: each
horizon measured as an independent offset from the base date. -/
def specForecastInd (hist : ℤ → ℤ → List ℚ) (date : ℤ) (hs : List ℤ) :
    List (Option ℚ) :=
  hs.map fun h =>
    mkEntry (pymean (hist (business_days date h)
        (business_days (business_days date h) 3)))
      (pymean (hist date (business_days date 3)))

/-- The cumulative cursor after the first `k + 1` horizons have been
applied. -/
def gfCursor (date : ℤ) (hs : List ℤ) (k : ℕ) : ℤ :=
  (hs.take (k + 1)).foldl business_days date

theorem take_set_succ {α : Type} :
    ∀ (l : List α) (i : ℕ) (e : α), i < l.length →
      (l.set i e).take (i + 1) = l.take i ++ [e] := by
  intro l
  induction l with
  | nil => intro i e h; simp at h
  | cons a l ih =>
    intro i e h
    cases i with
    | zero => simp
    | succ i =>
      simp only [List.set_cons_succ, List.take_succ_cons, List.cons_append,
        List.cons.injEq, true_and]
      exact ih i e (by simpa using h)

theorem gfGo_eq (hist : ℤ → ℤ → List ℚ) (price : Option ℚ) :
    ∀ (hs : List ℤ) (s : ℤ) (idx : ℕ) (fc : List (Option ℚ)),
      idx + hs.length ≤ fc.length →
      gfGo hist price s idx hs fc =
        .ok (fc.take idx ++ specCumGo hist price s hs ++
          fc.drop (idx + hs.length)) := by
  intro hs
  induction hs with
  | nil =>
    intro s idx fc h
    simp [gfGo, specCumGo]
  | cons a rest ih =>
    intro s idx fc h
    have hidx : idx < fc.length := by
      simp only [List.length_cons] at h; omega
    rw [gfGo, if_pos hidx,
      ih _ (idx + 1) _ (by simp only [List.length_set, List.length_cons] at h ⊢; omega)]
    rw [specCumGo]
    congr 1
    rw [take_set_succ fc idx _ hidx]
    rw [List.drop_set]
    rw [if_pos (by omega)]
    simp only [List.length_cons]
    have harr : idx + 1 + rest.length = idx + (rest.length + 1) := by omega
    rw [harr]
    simp [List.append_assoc]

theorem specCumGo_length (hist : ℤ → ℤ → List ℚ) (price : Option ℚ) :
    ∀ (hs : List ℤ) (s : ℤ), (specCumGo hist price s hs).length = hs.length := by
  intro hs
  induction hs with
  | nil => intro s; rfl
  | cons a rest ih => intro s; rw [specCumGo]; simp [ih]

theorem specCumGo_getElem? (hist : ℤ → ℤ → List ℚ) (price : Option ℚ) :
    ∀ (hs : List ℤ) (s : ℤ) (k : ℕ), k < hs.length →
      (specCumGo hist price s hs)[k]? =
        some (mkEntry (pymean (hist (gfCursor s hs k)
          (business_days (gfCursor s hs k) 3))) price) := by
  intro hs
  induction hs with
  | nil => intro s k h; simp at h
  | cons a rest ih =>
    intro s k h
    rw [specCumGo]
    cases k with
    | zero => simp [gfCursor]
    | succ k =>
      rw [List.getElem?_cons_succ, ih (business_days s a) k (by simpa using h)]
      have hc : gfCursor (business_days s a) rest k = gfCursor s (a :: rest) (k + 1) := by
        rw [gfCursor, gfCursor, List.take_succ_cons, List.foldl_cons]
      rw [hc]

theorem business_days_2_3 : business_days (2 : ℤ) 3 = 7 := by
  calc business_days (2 : ℤ) 3 = business_days 3 2 := by
        rw [bd_step_biz 2 3 (by norm_num) (by decide)]; norm_num
    _ = business_days 4 1 := by
        rw [bd_step_biz 3 2 (by norm_num) (by decide)]; norm_num
    _ = business_days 5 1 := by
        rw [bd_step_skip 4 1 (by norm_num) (by decide)]; norm_num
    _ = business_days 6 1 := by
        rw [bd_step_skip 5 1 (by norm_num) (by decide)]; norm_num
    _ = business_days 7 0 := by
        rw [bd_step_biz 6 1 (by norm_num) (by decide)]; norm_num
    _ = 7 := business_days_zero 7

theorem business_days_7_3 : business_days (7 : ℤ) 3 = 10 := by
  calc business_days (7 : ℤ) 3 = business_days 8 2 := by
        rw [bd_step_biz 7 3 (by norm_num) (by decide)]; norm_num
    _ = business_days 9 1 := by
        rw [bd_step_biz 8 2 (by norm_num) (by decide)]; norm_num
    _ = business_days 10 0 := by
        rw [bd_step_biz 9 1 (by norm_num) (by decide)]; norm_num
    _ = 10 := business_days_zero 10

theorem business_days_10_3 : business_days (10 : ℤ) 3 = 15 := by
  calc business_days (10 : ℤ) 3 = business_days 11 2 := by
        rw [bd_step_biz 10 3 (by norm_num) (by decide)]; norm_num
    _ = business_days 12 2 := by
        rw [bd_step_skip 11 2 (by norm_num) (by decide)]; norm_num
    _ = business_days 13 2 := by
        rw [bd_step_skip 12 2 (by norm_num) (by decide)]; norm_num
    _ = business_days 14 1 := by
        rw [bd_step_biz 13 2 (by norm_num) (by decide)]; norm_num
    _ = business_days 15 0 := by
        rw [bd_step_biz 14 1 (by norm_num) (by decide)]; norm_num
    _ = 15 := business_days_zero 15

/-- C3: the window for each horizon starts at `business_days` applied to the
date where the previous horizon landed — one cursor threaded cumulatively
through the loop (shown for 3-horizon lists, where the code completes
without its IndexError) — and this genuinely differs from independent
per-horizon offsets from the base date: on the accessor that reports each
window's start date, the cumulative and the independent readings give
different vectors. -/
theorem claim3_cumulative_cursor :
    (∀ (hist : ℤ → ℤ → List ℚ) (date : ℤ) (hs : List ℤ), hs.length = 3 →
      get_forecast hist date hs = .ok (specForecastCum hist date hs)) ∧
    specForecastCum (fun s _ => [(s : ℚ)]) 2 [3, 3, 3] ≠
      specForecastInd (fun s _ => [(s : ℚ)]) 2 [3, 3, 3] := by
  constructor
  · intro hist date hs hlen
    rw [get_forecast, gfGo_eq hist _ hs date 0 _ (by simp [hlen])]
    rw [specForecastCum]
    congr 1
    simp [hlen]
  · have hcum : specForecastCum (fun s _ => [(s : ℚ)]) 2 [3, 3, 3] =
        [some ((7 : ℚ)/2), some 5, some ((15 : ℚ)/2)] := by
      rw [specForecastCum]
      norm_num [specCumGo, business_days_2_3, business_days_7_3,
        business_days_10_3, pymean, mkEntry]
    have hind : specForecastInd (fun s _ => [(s : ℚ)]) 2 [3, 3, 3] =
        [some ((7 : ℚ)/2), some ((7 : ℚ)/2), some ((7 : ℚ)/2)] := by
      rw [specForecastInd]
      norm_num [business_days_2_3, pymean, mkEntry]
    intro heq
    rw [hcum, hind] at heq
    injection heq with h1 h2
    injection h2 with h3 h4
    have h5 : (5 : ℚ) = 7/2 := Option.some.inj h3
    norm_num at h5

theorem claim3_cumulative_cursor_witness :
    get_forecast (fun _ _ => [1]) 0 [1, 1, 1] =
      .ok (specForecastCum (fun _ _ => [1]) 0 [1, 1, 1]) :=
  claim3_cumulative_cursor.1 _ _ _ (by norm_num)

/-- C8: for horizon lists the code completes on (length ≤ 3), `get_forecast`
never raises; if the 3-business-day window fetched for a horizon is empty,
its mean close is NaN (`none`) and that NaN sits at the horizon's position
of the returned forecast vector. -/
theorem claim8_empty_window_nan (hist : ℤ → ℤ → List ℚ) (date : ℤ)
    (hs : List ℤ) (hlen : hs.length ≤ 3) :
    get_forecast hist date hs ≠ .error PyErr.indexError ∧
    ∀ l, get_forecast hist date hs = .ok l →
      ∀ k, k < hs.length →
        hist (gfCursor date hs k) (business_days (gfCursor date hs k) 3) = [] →
        pymean (hist (gfCursor date hs k)
          (business_days (gfCursor date hs k) 3)) = none ∧
        l[k]? = some none := by
  have hgo := gfGo_eq hist (pymean (hist date (business_days date 3))) hs date 0
    [some 0, some 0, some 0] (by simpa using hlen)
  rw [get_forecast, hgo]
  constructor
  · simp
  · intro l hl k hk hw
    injection hl with hl'
    subst hl'
    refine ⟨by rw [hw]; rfl, ?_⟩
    rw [List.take_zero, List.nil_append, List.getElem?_append,
      if_pos (by rw [specCumGo_length]; omega),
      specCumGo_getElem? hist _ hs date k hk, hw]
    rfl

theorem claim8_empty_window_nan_witness :
    get_forecast (fun _ _ => ([] : List ℚ)) 0 [1, 2, 3] ≠
      Except.error PyErr.indexError ∧
    (([none, none, none] : List (Option ℚ))[0]? = some none) := by
  have h := claim8_empty_window_nan (fun _ _ => ([] : List ℚ)) 0 [1, 2, 3]
    (by norm_num)
  have hEval : get_forecast (fun _ _ => ([] : List ℚ)) 0 [1, 2, 3] =
      .ok [none, none, none] := by
    rw [get_forecast, gfGo_eq _ _ _ _ _ _ (by norm_num)]
    simp [specCumGo, pymean, mkEntry]
  exact ⟨h.1, (h.2 [none, none, none] hEval 0 (by norm_num) rfl).2⟩

/-- C1 fails on the code: `forecast` is initialised to the fixed literal
`[0, 0, 0]`, so a one-horizon call returns a length-3 vector padded with the
two untouched integer placeholders, and a four-horizon call raises
IndexError — the output has the input horizon list's length only when that
length is exactly 3. (Evaluated on an accessor with constant close price 1
from a Monday base date.) -/
theorem claim1_forecast_hardcoded_length :
    get_forecast (fun _ _ => [1]) 0 [1] = .ok [some 1, some 0, some 0] ∧
    get_forecast (fun _ _ => [1]) 0 [1, 1, 1, 1] = .error PyErr.indexError := by
  constructor
  · rw [get_forecast, gfGo_eq _ _ _ _ _ _ (by norm_num)]
    norm_num [specCumGo, pymean, mkEntry]
  · rw [get_forecast]
    rw [gfGo, if_pos (by norm_num)]
    rw [gfGo, if_pos (by simp)]
    rw [gfGo, if_pos (by simp)]
    rw [gfGo, if_neg (by simp)]

end Atradebot
